import Mathlib

/-!
Shallow embedding of the virtio pmem character driver
(src/drivers/char/virtio_pmem/virtio_pmem_char.c and .h) and proofs about it.

The physical-window operations `pmem_lseek`, `pmem_read` and `pmem_write` are
translated statement by statement from the C file.  Machine integers are
modelled as `Int`/`Nat` with explicit reduction modulo `2 ^ 64` at the places
where the C code performs unsigned (`__u64`/`size_t`) arithmetic or converts a
signed `loff_t` to unsigned for a comparison.  Fallible external kernel
services (`ioremap`, `kmalloc`, `copy_from_user`, `copy_to_user`) are modelled
by an oracle `Env` of success flags; the bytes of physical memory are a
function `Int → Nat` from absolute physical address to byte value.
-/

namespace VirtioPmem

/-- Linux errno values used by the driver (returned negated, as in C). -/
def ENOMEM : Int := 12

/-- errno: bad address crossing the user/kernel boundary. -/
def EFAULT : Int := 14

/-- errno: invalid argument (unknown `whence`). -/
def EINVAL : Int := 22

/-- errno: illegal seek (out-of-range target), used by `pmem_lseek`. -/
def ESPIPE : Int := 29

/-- Region descriptor of `struct virtio_pmem` (virtio_pmem_char.h:31-46):
`start` and `size` describe the physical window.  `size` is a `__u64`. -/
structure Vpmem where
  start : Int
  size : Nat

/-- Oracle for the fallible external kernel services a single read/write call
uses.  A flag is `true` when the corresponding call succeeds. -/
structure Env where
  ioremapOk : Bool
  kmallocOk : Bool
  copyFromUserOk : Bool
  copyToUserOk : Bool

/-- The C expression `vpmem->size - pos` where `size : __u64` and
`pos : loff_t`: `pos` is converted to unsigned and the subtraction is
performed modulo `2 ^ 64`. -/
def usub64 (size : Nat) (pos : Int) : Nat :=
  (((size : Int) - pos) % 2 ^ 64).toNat

/-- The clamp performed at the top of both `pmem_read` and `pmem_write`
(virtio_pmem_char.c:81-82 and 117-118):
`if (count > vpmem->size - pos) count = vpmem->size - pos;`. -/
def clampedCount (size : Nat) (pos : Int) (count : Nat) : Nat :=
  if count > usub64 size pos then usub64 size pos else count

/-- Observable outcome of one `pmem_read` call: the `ssize_t` return value,
the file position `*ppos` afterwards, the bytes delivered to the user buffer,
and whether the transient mapping / intermediate buffer were acquired and
released. -/
structure ReadResult where
  ret : Int
  newPos : Int
  out : List Nat
  mapped : Bool
  unmapped : Bool
  alloced : Bool
  freed : Bool

/-- `pmem_read` (virtio_pmem_char.c:110-148), translated branch by branch.
`mem` is the contents of physical memory; the bytes read come from absolute
addresses `start + pos + i` (`map_start_addr = vpmem->start + pos`, line 122).
On `copy_to_user` failure the partial transfer is discarded, so `out = []`
on every error path. -/
def pmem_read (mem : Int → Nat) (vp : Vpmem) (env : Env) (count0 : Nat)
    (pos : Int) : ReadResult :=
  let count := clampedCount vp.size pos count0
  if count = 0 then
    ⟨0, pos, [], false, false, false, false⟩
  else if env.ioremapOk = false then
    -- `if (!pmem_addr) return -ENOMEM;` (lines 124-126): nothing acquired
    ⟨-ENOMEM, pos, [], false, false, false, false⟩
  else if env.kmallocOk = false then
    -- lines 127-132: `count = -ENOMEM; goto out;` — iounmap, temp_buf NULL
    ⟨-ENOMEM, pos, [], true, true, false, false⟩
  else if env.copyToUserOk = false then
    -- lines 136-139: `count = -EFAULT; goto out;` — both released at `out:`
    ⟨-EFAULT, pos, [], true, true, true, true⟩
  else
    -- success: memcpy_fromio + copy_to_user, `*ppos += count` (line 140)
    ⟨count, pos + count,
      (List.range count).map (fun (i : Nat) => mem (vp.start + pos + (i : Int))),
      true, true, true, true⟩

/-- Observable outcome of one `pmem_write` call. `memAfter` is physical
memory after the call. -/
structure WriteResult where
  ret : Int
  newPos : Int
  memAfter : Int → Nat
  mapped : Bool
  unmapped : Bool
  alloced : Bool
  freed : Bool

/-- `pmem_write` (virtio_pmem_char.c:74-108), translated branch by branch.
Lines 90-93 of the source read

    temp_buf = kmalloc(count, GFP_USER);
    if (!temp_buf)
        count = -ENOMEM;
        goto out;

The `goto out` is NOT inside the `if` body (there are no braces), so it
executes unconditionally; the statements at lines 95-101
(`copy_from_user`, `memcpy_toio`, `*ppos += count`) are unreachable.
Consequently, once `ioremap` succeeds the function jumps to `out:`
(iounmap, kfree when `temp_buf` is non-NULL) and returns either the clamped
`count` (kmalloc succeeded) or `-ENOMEM` (kmalloc failed), with physical
memory and `*ppos` unchanged in both cases. -/
def pmem_write (mem : Int → Nat) (vp : Vpmem) (env : Env) (buf : List Nat)
    (count0 : Nat) (pos : Int) : WriteResult :=
  let count := clampedCount vp.size pos count0
  if count = 0 then
    ⟨0, pos, mem, false, false, false, false⟩
  else if env.ioremapOk = false then
    -- `if (!pmem_addr) return -ENOMEM;` (lines 88-89)
    ⟨-ENOMEM, pos, mem, false, false, false, false⟩
  else if env.kmallocOk = false then
    -- `count = -ENOMEM;` then the unconditional `goto out`; temp_buf NULL
    ⟨-ENOMEM, pos, mem, true, true, false, false⟩
  else
    -- kmalloc succeeded, but the unconditional `goto out` still runs:
    -- no byte of `buf` is copied anywhere and `*ppos` is not advanced
    ⟨count, pos, mem, true, true, true, true⟩

/-- `SEEK_SET` whence value. -/
def SEEK_SET : Int := 0

/-- `SEEK_CUR` whence value. -/
def SEEK_CUR : Int := 1

/-- `SEEK_END` whence value. -/
def SEEK_END : Int := 2

/-- Value of a signed 64-bit quantity after conversion to `__u64`, as used by
the comparisons `off >= vpmem->size` and `newpos >= vpmem->size`. -/
def toU64 (n : Int) : Int := n % 2 ^ 64

/-- Two's-complement wrap of an integer into the signed 64-bit range,
modelling `loff_t` arithmetic (the kernel is compiled with wrapping signed
arithmetic). -/
def wrap64 (n : Int) : Int :=
  if n % 2 ^ 64 < 2 ^ 63 then n % 2 ^ 64 else n % 2 ^ 64 - 2 ^ 64

/-- Outcome of `pmem_lseek`: the returned `loff_t` and the file position
`filp->f_pos` after the call. -/
structure SeekResult where
  ret : Int
  newPos : Int

/-- `pmem_lseek` (virtio_pmem_char.c:39-72), translated branch by branch.
In the comparisons against `vpmem->size` (a `__u64`) the signed `loff_t`
operand is converted to unsigned, hence `toU64`.  On the failure paths the
`goto out` skips the assignment `filp->f_pos = newpos` (line 69), so the
stored position is unchanged. -/
def pmem_lseek (vp : Vpmem) (fpos : Int) (off : Int) (whence : Int) :
    SeekResult :=
  if whence = SEEK_SET then
    if toU64 off ≥ (vp.size : Int) then ⟨-ESPIPE, fpos⟩
    else ⟨off, off⟩
  else if whence = SEEK_CUR then
    let newpos := wrap64 (fpos + off)
    if toU64 newpos ≥ (vp.size : Int) then ⟨-ESPIPE, fpos⟩
    else ⟨newpos, newpos⟩
  else if whence = SEEK_END then
    ⟨wrap64 (vp.size : Int), wrap64 (vp.size : Int)⟩
  else
    ⟨-EINVAL, fpos⟩

/-! ### Arithmetic helper lemmas about the 64-bit conversions -/

theorem wrap64_lb (n : Int) : -(2 ^ 63) ≤ wrap64 n := by
  unfold wrap64; split <;> omega

theorem wrap64_ub (n : Int) : wrap64 n < 2 ^ 63 := by
  unfold wrap64; split <;> omega

theorem wrap64_eq_self (n : Int) (h0 : 0 ≤ n) (h1 : n < 2 ^ 63) :
    wrap64 n = n := by
  unfold wrap64; split <;> omega

theorem toU64_wrap64_neg (n : Int) (h : wrap64 n < 0) :
    toU64 (wrap64 n) = wrap64 n + 2 ^ 64 := by
  have := wrap64_lb n; unfold toU64; omega

/-! ### Claim theorems: physical window access -/

/-- C1 (code bug): writing one byte `7` at offset 0 of a zeroed 4-byte region
reports 1 byte written, yet reading the same range back yields the old byte
`0`, not `7`: the unbraced `if (!temp_buf) count = -ENOMEM; goto out;` in
`pmem_write` (virtio_pmem_char.c:91-93) makes the `goto` unconditional, so the
copy into the window never executes and the round-trip property fails. -/
theorem write_then_read_not_round_trip :
    (pmem_write (fun _ => 0) ⟨0, 4⟩ ⟨true, true, true, true⟩ [7] 1 0).ret
      = 1 ∧
    (pmem_read
        (pmem_write (fun _ => 0) ⟨0, 4⟩ ⟨true, true, true, true⟩
          [7] 1 0).memAfter
        ⟨0, 4⟩ ⟨true, true, true, true⟩ 1 0).out = [0] ∧
    [(0 : Nat)] ≠ [7] := by
  refine ⟨by decide, by decide, by decide⟩

/-- C2 (code bug): `pmem_write` of one byte `9` at offset 1 returns the
clamped count 1, but the byte at address `start + 1` of the window still holds
its old value `0`: because of the unbraced `if` at virtio_pmem_char.c:91-93
the caller's bytes are never copied into the intermediate buffer nor into the
mapped window, so the returned count does not match the bytes actually
transferred. -/
theorem write_reports_count_but_copies_nothing :
    (pmem_write (fun _ => 0) ⟨0, 4⟩ ⟨true, true, true, true⟩ [9] 1 1).ret
      = 1 ∧
    (pmem_write (fun _ => 0) ⟨0, 4⟩ ⟨true, true, true, true⟩
        [9] 1 1).memAfter 1 = 0 ∧
    (pmem_write (fun _ => 0) ⟨0, 4⟩ ⟨true, true, true, true⟩ [9] 1 1).newPos
      = 1 ∧
    (9 : Nat) ≠ 0 := by
  refine ⟨by decide, by decide, by decide, by decide⟩

/-- C5 counterexample: with `size = 4`, at offset `5 ≥ size` the C expression
`vpmem->size - pos` wraps around in unsigned 64-bit arithmetic, the requested
length 1 is NOT clamped to zero, and the call transfers 1 byte instead of
returning zero bytes as the claim states. -/
theorem read_past_end_not_zero :
    (5 : Int) ≥ (((⟨0, 4⟩ : Vpmem)).size : Int) ∧
    (pmem_read (fun _ => 0) ⟨0, 4⟩ ⟨true, true, true, true⟩ 1 5).ret = 1 ∧
    (pmem_read (fun _ => 0) ⟨0, 4⟩ ⟨true, true, true, true⟩ 1 5).out.length
      = 1 := by
  refine ⟨by decide, by decide, by decide⟩

/-- C5 amended: for every offset with `0 ≤ offset ≤ size` (the range the
driver's own seek/read/write maintain), `pmem_read` returns zero bytes when
`offset = size` and otherwise transfers at most `size - offset` bytes. -/
theorem pmem_read_clamps (mem : Int → Nat) (vp : Vpmem) (env : Env)
    (count : Nat) (pos : Int) (hsize : vp.size < 2 ^ 64)
    (h0 : 0 ≤ pos) (h1 : pos ≤ (vp.size : Int)) :
    (pos = (vp.size : Int) →
      (pmem_read mem vp env count pos).ret = 0 ∧
      (pmem_read mem vp env count pos).out = []) ∧
    (pmem_read mem vp env count pos).ret ≤ (vp.size : Int) - pos ∧
    ((pmem_read mem vp env count pos).out.length : Int)
      ≤ (vp.size : Int) - pos := by
  have hu : (usub64 vp.size pos : Int) = (vp.size : Int) - pos := by
    unfold usub64; omega
  have hcle : (clampedCount vp.size pos count : Int)
      ≤ (vp.size : Int) - pos := by
    unfold clampedCount; split <;> omega
  have hc0 : pos = (vp.size : Int) → clampedCount vp.size pos count = 0 := by
    intro hpos; unfold clampedCount; split <;> omega
  by_cases hz : clampedCount vp.size pos count = 0
  · have hr : pmem_read mem vp env count pos
        = ⟨0, pos, [], false, false, false, false⟩ := by
      simp [pmem_read, hz]
    rw [hr]
    exact ⟨fun _ => ⟨rfl, rfl⟩, by simp; omega, by simp; omega⟩
  · refine ⟨fun hpos => absurd (hc0 hpos) hz, ?_, ?_⟩
    · have hret : (pmem_read mem vp env count pos).ret
          ≤ (clampedCount vp.size pos count : Int) := by
        obtain ⟨io, km, cf, ct⟩ := env
        cases io <;> cases km <;> cases ct <;>
          simp [pmem_read, hz, ENOMEM, EFAULT] <;> omega
      omega
    · have hlen : (pmem_read mem vp env count pos).out.length
          ≤ clampedCount vp.size pos count := by
        obtain ⟨io, km, cf, ct⟩ := env
        cases io <;> cases km <;> cases ct <;> simp [pmem_read, hz]
      omega

/-- Witness for the amended C5 at `size = 4`, `pos = 1`, `count = 3`. -/
theorem pmem_read_clamps_witness :
    ((1 : Int) = (((⟨0, 4⟩ : Vpmem)).size : Int) →
      (pmem_read (fun _ => 0) ⟨0, 4⟩ ⟨true, true, true, true⟩ 3 1).ret = 0 ∧
      (pmem_read (fun _ => 0) ⟨0, 4⟩ ⟨true, true, true, true⟩ 3 1).out
        = []) ∧
    (pmem_read (fun _ => 0) ⟨0, 4⟩ ⟨true, true, true, true⟩ 3 1).ret
      ≤ (((⟨0, 4⟩ : Vpmem)).size : Int) - 1 ∧
    ((pmem_read (fun _ => 0) ⟨0, 4⟩
        ⟨true, true, true, true⟩ 3 1).out.length : Int)
      ≤ (((⟨0, 4⟩ : Vpmem)).size : Int) - 1 :=
  pmem_read_clamps (fun _ => 0) ⟨0, 4⟩ ⟨true, true, true, true⟩ 3 1
    (by decide) (by decide) (by decide)

/-- C8: a read or write whose clamped length is zero returns success with zero
bytes transferred, leaves memory and the file position alone, and establishes
no transient mapping. -/
theorem zero_clamped_read_write (mem : Int → Nat) (vp : Vpmem) (env : Env)
    (buf : List Nat) (count : Nat) (pos : Int)
    (hc : clampedCount vp.size pos count = 0) :
    (pmem_read mem vp env count pos).ret = 0 ∧
    (pmem_read mem vp env count pos).out = [] ∧
    (pmem_read mem vp env count pos).mapped = false ∧
    (pmem_write mem vp env buf count pos).ret = 0 ∧
    (pmem_write mem vp env buf count pos).memAfter = mem ∧
    (pmem_write mem vp env buf count pos).mapped = false := by
  simp [pmem_read, pmem_write, hc]

/-- Witness for C8 at `size = 4`, `pos = 4`, `count = 3` (clamp yields 0). -/
theorem zero_clamped_read_write_witness :
    clampedCount 4 4 3 = 0 ∧
    ((pmem_read (fun _ => 0) ⟨0, 4⟩ ⟨true, true, true, true⟩ 3 4).ret = 0 ∧
     (pmem_read (fun _ => 0) ⟨0, 4⟩ ⟨true, true, true, true⟩ 3 4).out = [] ∧
     (pmem_read (fun _ => 0) ⟨0, 4⟩ ⟨true, true, true, true⟩ 3 4).mapped
       = false ∧
     (pmem_write (fun _ => 0) ⟨0, 4⟩ ⟨true, true, true, true⟩
         [1, 2, 3] 3 4).ret = 0 ∧
     (pmem_write (fun _ => 0) ⟨0, 4⟩ ⟨true, true, true, true⟩
         [1, 2, 3] 3 4).memAfter = (fun _ => 0) ∧
     (pmem_write (fun _ => 0) ⟨0, 4⟩ ⟨true, true, true, true⟩
         [1, 2, 3] 3 4).mapped = false) :=
  ⟨by decide, zero_clamped_read_write (fun _ => 0) ⟨0, 4⟩
    ⟨true, true, true, true⟩ [1, 2, 3] 3 4 (by decide)⟩

/-- C9: whenever `pmem_lseek` returns an error (negative value), the stored
file position is left unchanged — the `goto out` on both failure paths skips
the assignment to `filp->f_pos`.  The bounds assume a realistic region size
(below `2 ^ 63`) and an `off` in the signed 64-bit range. -/
theorem pmem_lseek_fail_keeps_pos (vp : Vpmem) (fpos off whence : Int)
    (hsize : (vp.size : Int) < 2 ^ 63) (hoff : -(2 ^ 63) ≤ off)
    (hret : (pmem_lseek vp fpos off whence).ret < 0) :
    (pmem_lseek vp fpos off whence).newPos = fpos := by
  by_cases h1 : whence = SEEK_SET
  · subst h1
    by_cases h2 : toU64 off ≥ (vp.size : Int)
    · simp [pmem_lseek, h2]
    · exfalso
      have hoff0 : 0 ≤ off := by unfold toU64 at h2; omega
      simp [pmem_lseek, h2] at hret
      omega
  · by_cases h2 : whence = SEEK_CUR
    · subst h2
      by_cases h3 : toU64 (wrap64 (fpos + off)) ≥ (vp.size : Int)
      · simp [pmem_lseek, SEEK_SET, SEEK_CUR, h3]
      · exfalso
        have hb := wrap64_lb (fpos + off)
        simp [pmem_lseek, SEEK_SET, SEEK_CUR, h3] at hret
        rw [toU64_wrap64_neg _ hret] at h3
        omega
    · by_cases h3 : whence = SEEK_END
      · subst h3
        exfalso
        have hw : wrap64 ((vp.size : Int)) = (vp.size : Int) :=
          wrap64_eq_self _ (by omega) hsize
        simp [pmem_lseek, SEEK_SET, SEEK_CUR, SEEK_END, hw] at hret
        omega
      · simp [pmem_lseek, h1, h2, h3]

/-- Witness for C9: an unknown whence value `7` fails with `-EINVAL` and the
position `2` is preserved. -/
theorem pmem_lseek_fail_keeps_pos_witness :
    (pmem_lseek ⟨0, 4⟩ 2 0 7).newPos = 2 :=
  pmem_lseek_fail_keeps_pos ⟨0, 4⟩ 2 0 7 (by decide) (by decide) (by decide)

/-- C10: `pmem_read` advances the stored file position by exactly the number
of bytes it returns when it succeeds (`*ppos += count` on the success path
only), and leaves the position unchanged when it fails with `-ENOMEM` or
`-EFAULT`. -/
theorem pmem_read_pos_advance (mem : Int → Nat) (vp : Vpmem) (env : Env)
    (count : Nat) (pos : Int) :
    (pmem_read mem vp env count pos).newPos =
      if 0 ≤ (pmem_read mem vp env count pos).ret then
        pos + (pmem_read mem vp env count pos).ret
      else pos := by
  by_cases hz : clampedCount vp.size pos count = 0
  · simp [pmem_read, hz]
  · obtain ⟨io, km, cf, ct⟩ := env
    cases io <;> cases km <;> cases ct <;>
      simp [pmem_read, hz, ENOMEM, EFAULT]

/-- C7: for an in-range read with non-zero clamped length, `pmem_read` fails
with `-ENOMEM` exactly when the transient mapping or the intermediate buffer
cannot be obtained, fails with `-EFAULT` exactly when the copy to the caller
cannot complete, and whatever was acquired (mapping, buffer) is released on
every exit path. -/
theorem pmem_read_error_paths (mem : Int → Nat) (vp : Vpmem) (env : Env)
    (count : Nat) (pos : Int)
    (hc : clampedCount vp.size pos count ≠ 0) :
    ((pmem_read mem vp env count pos).ret = -ENOMEM ↔
      (env.ioremapOk = false ∨ env.kmallocOk = false)) ∧
    ((pmem_read mem vp env count pos).ret = -EFAULT ↔
      (env.ioremapOk = true ∧ env.kmallocOk = true ∧
        env.copyToUserOk = false)) ∧
    ((pmem_read mem vp env count pos).mapped = true →
      (pmem_read mem vp env count pos).unmapped = true) ∧
    ((pmem_read mem vp env count pos).alloced = true →
      (pmem_read mem vp env count pos).freed = true) := by
  obtain ⟨io, km, cf, ct⟩ := env
  cases io <;> cases km <;> cases ct <;>
    simp [pmem_read, hc, ENOMEM, EFAULT]

/-- Witness for C7 at `size = 4`, `pos = 0`, `count = 1`, with a failing
`ioremap`. -/
theorem pmem_read_error_paths_witness :
    clampedCount 4 0 1 ≠ 0 ∧
    (((pmem_read (fun _ => 0) ⟨0, 4⟩ ⟨false, true, true, true⟩ 1 0).ret
        = -ENOMEM ↔
      ((Env.mk false true true true).ioremapOk = false ∨
        (Env.mk false true true true).kmallocOk = false)) ∧
    ((pmem_read (fun _ => 0) ⟨0, 4⟩ ⟨false, true, true, true⟩ 1 0).ret
        = -EFAULT ↔
      ((Env.mk false true true true).ioremapOk = true ∧
        (Env.mk false true true true).kmallocOk = true ∧
        (Env.mk false true true true).copyToUserOk = false)) ∧
    ((pmem_read (fun _ => 0) ⟨0, 4⟩ ⟨false, true, true, true⟩ 1 0).mapped
        = true →
      (pmem_read (fun _ => 0) ⟨0, 4⟩ ⟨false, true, true, true⟩ 1 0).unmapped
        = true) ∧
    ((pmem_read (fun _ => 0) ⟨0, 4⟩ ⟨false, true, true, true⟩ 1 0).alloced
        = true →
      (pmem_read (fun _ => 0) ⟨0, 4⟩ ⟨false, true, true, true⟩ 1 0).freed
        = true)) :=
  ⟨by decide, pmem_read_error_paths (fun _ => 0) ⟨0, 4⟩
    ⟨false, true, true, true⟩ 1 0 (by decide)⟩

/-- C6: `pmem_lseek` with SEEK_SET or SEEK_CUR succeeds and stores the target
position exactly when the resulting position lies in `[0, size)`, and fails
with `-ESPIPE` (the spec's InvalidArgument class) otherwise; SEEK_END always
stores exactly `size`; any other whence value fails with `-EINVAL` leaving
the position unchanged.  Bounds: realistic region size below `2 ^ 63`, a
current position in `[0, 2 ^ 63)` and an offset in the signed 64-bit range. -/
theorem pmem_lseek_spec (vp : Vpmem) (fpos off w : Int)
    (hsize : (vp.size : Int) < 2 ^ 63)
    (hfpos0 : 0 ≤ fpos) (hfpos1 : fpos < 2 ^ 63)
    (hoff0 : -(2 ^ 63) ≤ off) (hoff1 : off < 2 ^ 63) :
    ((0 ≤ off ∧ off < (vp.size : Int)) →
      pmem_lseek vp fpos off SEEK_SET = ⟨off, off⟩) ∧
    (¬(0 ≤ off ∧ off < (vp.size : Int)) →
      pmem_lseek vp fpos off SEEK_SET = ⟨-ESPIPE, fpos⟩) ∧
    ((0 ≤ fpos + off ∧ fpos + off < (vp.size : Int)) →
      pmem_lseek vp fpos off SEEK_CUR = ⟨fpos + off, fpos + off⟩) ∧
    (¬(0 ≤ fpos + off ∧ fpos + off < (vp.size : Int)) →
      pmem_lseek vp fpos off SEEK_CUR = ⟨-ESPIPE, fpos⟩) ∧
    pmem_lseek vp fpos off SEEK_END
      = ⟨(vp.size : Int), (vp.size : Int)⟩ ∧
    (w ≠ SEEK_SET → w ≠ SEEK_CUR → w ≠ SEEK_END →
      pmem_lseek vp fpos off w = ⟨-EINVAL, fpos⟩) := by
  have hSET : pmem_lseek vp fpos off SEEK_SET =
      if toU64 off ≥ (vp.size : Int) then ⟨-ESPIPE, fpos⟩
      else ⟨off, off⟩ := by
    simp [pmem_lseek]
  have hCUR : pmem_lseek vp fpos off SEEK_CUR =
      if toU64 (wrap64 (fpos + off)) ≥ (vp.size : Int) then ⟨-ESPIPE, fpos⟩
      else ⟨wrap64 (fpos + off), wrap64 (fpos + off)⟩ := by
    simp [pmem_lseek, SEEK_SET, SEEK_CUR]
  have hEND : pmem_lseek vp fpos off SEEK_END
      = ⟨wrap64 ((vp.size : Int)), wrap64 ((vp.size : Int))⟩ := by
    simp [pmem_lseek, SEEK_SET, SEEK_CUR, SEEK_END]
  refine ⟨?_, ?_, ?_, ?_, ?_, ?_⟩
  · rintro ⟨ha, hb⟩
    rw [hSET, if_neg]
    unfold toU64; omega
  · intro h
    rw [hSET, if_pos]
    unfold toU64; omega
  · rintro ⟨ha, hb⟩
    have hw : wrap64 (fpos + off) = fpos + off :=
      wrap64_eq_self _ ha (by omega)
    rw [hCUR, hw, if_neg]
    unfold toU64; omega
  · intro h
    rw [hCUR, if_pos]
    unfold toU64 wrap64; split <;> omega
  · have hw : wrap64 ((vp.size : Int)) = (vp.size : Int) :=
      wrap64_eq_self _ (by omega) hsize
    rw [hEND, hw]
  · intro h1 h2 h3
    simp [pmem_lseek, h1, h2, h3]

/-- Witness for C6 at `size = 4`, `fpos = 2`, `off = 1`, unknown whence `7`. -/
theorem pmem_lseek_spec_witness :
    ((0 ≤ (1 : Int) ∧ (1 : Int) < (((⟨0, 4⟩ : Vpmem)).size : Int)) →
      pmem_lseek ⟨0, 4⟩ 2 1 SEEK_SET = ⟨1, 1⟩) ∧
    (¬(0 ≤ (1 : Int) ∧ (1 : Int) < (((⟨0, 4⟩ : Vpmem)).size : Int)) →
      pmem_lseek ⟨0, 4⟩ 2 1 SEEK_SET = ⟨-ESPIPE, 2⟩) ∧
    ((0 ≤ (2 : Int) + 1 ∧ (2 : Int) + 1 < (((⟨0, 4⟩ : Vpmem)).size : Int)) →
      pmem_lseek ⟨0, 4⟩ 2 1 SEEK_CUR = ⟨2 + 1, 2 + 1⟩) ∧
    (¬(0 ≤ (2 : Int) + 1 ∧ (2 : Int) + 1 < (((⟨0, 4⟩ : Vpmem)).size : Int)) →
      pmem_lseek ⟨0, 4⟩ 2 1 SEEK_CUR = ⟨-ESPIPE, 2⟩) ∧
    pmem_lseek ⟨0, 4⟩ 2 1 SEEK_END
      = ⟨(((⟨0, 4⟩ : Vpmem)).size : Int), (((⟨0, 4⟩ : Vpmem)).size : Int)⟩ ∧
    ((7 : Int) ≠ SEEK_SET → (7 : Int) ≠ SEEK_CUR → (7 : Int) ≠ SEEK_END →
      pmem_lseek ⟨0, 4⟩ 2 1 7 = ⟨-EINVAL, 2⟩) :=
  pmem_lseek_spec ⟨0, 4⟩ 2 1 7 (by decide) (by decide) (by decide)
    (by decide) (by decide)

/-!
### Flush request engine

`async_pmem_flush` and `virtio_pmem_host_ack` are only declared in this
repository (virtio_pmem_char.h:48-49); their bodies are not under src/.  The
engine below is therefore modelled from the spec (§4.2 Command Channel, §4.3
Flush Request Engine): requests are identified by their submission sequence
number; `queued` is the bounded command channel (in-flight, order preserved),
`deferred` the FIFO list of parked requests, `acked` the sequence of
completion notifications already delivered to blocked callers, in delivery
order, and `canceled` the callers woken with the distinguished Canceled
status.  `virtio_pmem_remove` is translated from the source
(virtio_pmem_char.c:211-217).
-/

/-- Modelled from the spec: aggregate state of the flush request engine plus
the device-lifecycle facts `virtio_pmem_remove` manipulates.  A request id is
in exactly one of `queued`, `deferred`, `acked` (or `canceled`) at any time. -/
structure Engine where
  cap : Nat
  queued : List Nat
  deferred : List Nat
  acked : List Nat
  canceled : List Nat
  nextId : Nat
  vqAlive : Bool
  regionReserved : Bool
  registered : Bool

/-- Initial engine state with channel capacity `cap` and no requests. -/
def initEngine (cap : Nat) : Engine :=
  ⟨cap, [], [], [], [], 0, true, true, true⟩

/-- Modelled from the spec (§4.3 `submit`, steps 1-2): construct a request,
`offer` it to the channel; on acceptance it is QUEUED, otherwise it is
appended to the deferred list (DEFERRED).  The channel accepts exactly when
the in-flight count is below capacity (§4.2 `offer`). -/
def submit (s : Engine) : Engine :=
  if s.queued.length < s.cap then
    { s with queued := s.queued ++ [s.nextId], nextId := s.nextId + 1 }
  else
    { s with deferred := s.deferred ++ [s.nextId], nextId := s.nextId + 1 }

/-- Modelled from the spec (§4.2 `drainCompleted`): the host has finished an
arbitrary subset of the in-flight requests, described by the selection mask
`sel`; returns them in host-completion order together with the requests still
in flight (channel order preserved). -/
def drainSelect : List Bool → List Nat → List Nat × List Nat
  | [], q => ([], q)
  | _ :: _, [] => ([], [])
  | b :: bs, x :: xs =>
    let p := drainSelect bs xs
    if b then (x :: p.1, p.2) else (p.1, x :: p.2)

/-- Modelled from the spec (§4.3 `onHostSignal`, step 2): while the channel
has free capacity and the deferred list is non-empty, promote the head of the
deferred list (oldest first) into the channel. -/
def promote (cap : Nat) : List Nat → List Nat → List Nat × List Nat
  | q, [] => (q, [])
  | q, x :: ds =>
    if q.length < cap then promote cap (q ++ [x]) ds else (q, x :: ds)

/-- Modelled from the spec (§4.3 `onHostSignal`): drain the completed
requests (delivering each completion to its caller, in host order), then
promote deferred requests into the freed slots. -/
def onHostSignal (sel : List Bool) (s : Engine) : Engine :=
  let p := drainSelect sel s.queued
  let r := promote s.cap p.2 s.deferred
  { s with queued := r.1, deferred := r.2, acked := s.acked ++ p.1 }

/-- `virtio_pmem_remove` (virtio_pmem_char.c:211-217): deletes the
virtqueues, resets the device, releases the reserved memory region and
deregisters the misc device.  It does not touch `req_list`, any request's
`done` flag or wait queues: no request is completed, canceled or woken. -/
def virtio_pmem_remove (s : Engine) : Engine :=
  { s with vqAlive := false, regionReserved := false, registered := false }

/-- One interaction with the engine: a caller submitting a flush request, or
a host signal completing the selected in-flight requests. -/
inductive EngAction where
  | submit : EngAction
  | signal : List Bool → EngAction

/-- Apply one action to the engine state. -/
def stepAct (s : Engine) (a : EngAction) : Engine :=
  match a with
  | .submit => submit s
  | .signal sel => onHostSignal sel s

/-- Run a sequence of submissions and host signals. -/
def runActs (acts : List EngAction) (s : Engine) : Engine :=
  acts.foldl stepAct s

/-- A host signal that acknowledges every request currently in flight: the
step the host takes when it "eventually acknowledges every accepted
request". -/
def drainAll (s : Engine) : Engine :=
  onHostSignal (List.replicate s.queued.length true) s

/-- The engine bookkeeping invariant: the submitted request ids (`< nextId`)
are distributed, each exactly once, over channel / deferred list / delivered
completions. -/
def EngInv (s : Engine) : Prop :=
  (s.queued ++ s.deferred ++ s.acked).Perm (List.range s.nextId)

/-! ### Engine lemmas -/

theorem drainSelect_perm (sel : List Bool) (q : List Nat) :
    ((drainSelect sel q).1 ++ (drainSelect sel q).2).Perm q := by
  induction sel generalizing q with
  | nil => simp [drainSelect]
  | cons b bs ih =>
    cases q with
    | nil => simp [drainSelect]
    | cons x xs =>
      cases b
      · simpa [drainSelect] using List.perm_middle.trans ((ih xs).cons x)
      · simpa [drainSelect] using (ih xs).cons x

theorem promote_perm (cap : Nat) (d : List Nat) : ∀ q : List Nat,
    ((promote cap q d).1 ++ (promote cap q d).2).Perm (q ++ d) := by
  induction d with
  | nil => intro q; simp [promote]
  | cons x ds ih =>
    intro q
    by_cases h : q.length < cap
    · have h2 := ih (q ++ [x])
      rw [List.append_assoc] at h2
      simpa [promote, h] using h2
    · simp [promote, h]

theorem promote_len (cap : Nat) (d q : List Nat) :
    (promote cap q d).1.length + (promote cap q d).2.length
      = q.length + d.length := by
  have h := (promote_perm cap d q).length_eq
  simpa [List.length_append] using h

theorem promote_snd_le (cap : Nat) (d : List Nat) : ∀ q : List Nat,
    ((promote cap q d).2).length ≤ d.length := by
  induction d with
  | nil => intro q; simp [promote]
  | cons x ds ih =>
    intro q
    by_cases h : q.length < cap
    · simp only [promote, if_pos h]
      exact le_trans (ih (q ++ [x])) (by simp)
    · simp [promote, h]

theorem promote_snd_lt (cap : Nat) (hcap : 0 < cap) (x : Nat) (ds : List Nat) :
    ((promote cap [] (x :: ds)).2).length < (x :: ds).length := by
  simp only [promote]
  rw [if_pos (by simpa using hcap)]
  exact lt_of_le_of_lt (promote_snd_le cap ds ([] ++ [x])) (by simp)

theorem engInv_init (cap : Nat) : EngInv (initEngine cap) := by
  simp [EngInv, initEngine]

theorem engInv_submit (s : Engine) (h : EngInv s) : EngInv (submit s) := by
  unfold EngInv submit at *
  split <;>
  · rw [List.range_succ]
    refine List.perm_iff_count.mpr fun y => ?_
    have hy := h.count_eq y
    simp only [List.count_append] at hy ⊢
    omega

theorem engInv_signal (sel : List Bool) (s : Engine) (h : EngInv s) :
    EngInv (onHostSignal sel s) := by
  unfold EngInv onHostSignal at *
  refine List.perm_iff_count.mpr fun y => ?_
  have hy := h.count_eq y
  have hp := (drainSelect_perm sel s.queued).count_eq y
  have hr := (promote_perm s.cap s.deferred (drainSelect sel s.queued).2).count_eq y
  simp only [List.count_append] at hy hp hr ⊢
  omega

theorem engInv_run (acts : List EngAction) : ∀ s : Engine, EngInv s →
    EngInv (runActs acts s) := by
  induction acts with
  | nil => intro s h; exact h
  | cons a as ih =>
    intro s h
    cases a with
    | submit => exact ih _ (engInv_submit s h)
    | signal sel => exact ih _ (engInv_signal sel s h)

theorem engInv_drainAll (s : Engine) (h : EngInv s) : EngInv (drainAll s) := by
  unfold drainAll
  exact engInv_signal _ s h

theorem engInv_iterate (n : Nat) : ∀ s : Engine, EngInv s →
    EngInv (drainAll^[n] s) := by
  induction n with
  | zero => intro s h; simpa using h
  | succ m ih =>
    intro s h
    rw [Function.iterate_succ_apply]
    exact ih _ (engInv_drainAll s h)

theorem submit_cap (s : Engine) : (submit s).cap = s.cap := by
  unfold submit; split <;> rfl

theorem stepAct_cap (s : Engine) (a : EngAction) : (stepAct s a).cap = s.cap := by
  cases a with
  | submit => exact submit_cap s
  | signal sel => rfl

theorem runActs_cap (acts : List EngAction) : ∀ s : Engine,
    (runActs acts s).cap = s.cap := by
  induction acts with
  | nil => intro s; rfl
  | cons a as ih =>
    intro s
    rw [runActs, List.foldl_cons, ← runActs, ih, stepAct_cap]

theorem drainAll_cap (s : Engine) : (drainAll s).cap = s.cap := rfl

theorem drainSelect_all (q : List Nat) :
    drainSelect (List.replicate q.length true) q = (q, []) := by
  induction q with
  | nil => rfl
  | cons x xs ih => simp [drainSelect, List.replicate_succ, ih]

theorem drainAll_eq (s : Engine) :
    drainAll s = { s with queued := (promote s.cap [] s.deferred).1,
                          deferred := (promote s.cap [] s.deferred).2,
                          acked := s.acked ++ s.queued } := by
  unfold drainAll onHostSignal
  rw [drainSelect_all s.queued]

theorem drain_measure_lt (s : Engine) (hcap : 0 < s.cap)
    (hne : s.queued ≠ [] ∨ s.deferred ≠ []) :
    2 * (drainAll s).deferred.length + (drainAll s).queued.length
      < 2 * s.deferred.length + s.queued.length := by
  rw [drainAll_eq]
  dsimp only
  cases hd : s.deferred with
  | nil =>
    have hq : s.queued ≠ [] := by
      rcases hne with h | h
      · exact h
      · exact absurd hd h
    simp only [promote, List.length_nil, Nat.mul_zero, Nat.zero_add]
    have := List.length_pos.mpr hq
    simp
    omega
  | cons x ds =>
    have h1 := promote_snd_lt s.cap hcap x ds
    have h2 := promote_len s.cap (x :: ds) []
    simp only [List.length_cons, List.length_nil] at h1 h2 ⊢
    omega

theorem drain_empties (m : Nat) : ∀ s : Engine, 0 < s.cap →
    2 * s.deferred.length + s.queued.length ≤ m →
    ∃ n, (drainAll^[n] s).queued = [] ∧ (drainAll^[n] s).deferred = [] := by
  induction m with
  | zero =>
    intro s _ hle
    have h1 : s.queued.length = 0 := by omega
    have h2 : s.deferred.length = 0 := by omega
    exact ⟨0, by simpa using List.length_eq_zero.mp h1,
           by simpa using List.length_eq_zero.mp h2⟩
  | succ m ih =>
    intro s hcap hle
    by_cases hboth : s.queued = [] ∧ s.deferred = []
    · exact ⟨0, by simpa using hboth.1, by simpa using hboth.2⟩
    · have hne : s.queued ≠ [] ∨ s.deferred ≠ [] := by tauto
      obtain ⟨n, h1, h2⟩ := ih (drainAll s)
        (by rw [drainAll_cap]; exact hcap)
        (by have := drain_measure_lt s hcap hne; omega)
      exact ⟨n + 1, by rw [Function.iterate_succ_apply]; exact h1,
             by rw [Function.iterate_succ_apply]; exact h2⟩

/-! ### Claim theorems: flush request engine and teardown -/

/-- C3 (code bug): with channel capacity 2, five flush submissions leave
requests 0 and 1 QUEUED and 2, 3, 4 DEFERRED; `virtio_pmem_remove` then
tears the device down without completing, canceling or waking any of them —
all five callers remain blocked and the distinguished Canceled status is
never delivered, contrary to the claim that no caller remains blocked after
teardown. -/
theorem remove_leaves_requests_parked :
    (virtio_pmem_remove
        (submit (submit (submit (submit (submit (initEngine 2))))))).queued
      = [0, 1] ∧
    (virtio_pmem_remove
        (submit (submit (submit (submit (submit (initEngine 2))))))).deferred
      = [2, 3, 4] ∧
    (virtio_pmem_remove
        (submit (submit (submit (submit (submit (initEngine 2))))))).acked
      = [] ∧
    (virtio_pmem_remove
        (submit (submit (submit (submit (submit (initEngine 2))))))).canceled
      = [] := by
  refine ⟨by decide, by decide, by decide, by decide⟩

/-- C4: for any interleaving of submissions and host signals, once the host
acknowledges everything in flight often enough (finitely many `drainAll`
steps — the "host eventually acknowledges every accepted request"
assumption), the channel and the deferred list empty out and the sequence of
delivered completion notifications is a permutation of the set of submitted
request ids: every submitted request receives exactly one completion, and
none remains permanently CREATED, QUEUED or DEFERRED, even those parked
because the channel was full.  Requires a channel of non-zero capacity. -/
theorem flush_no_loss (cap : Nat) (acts : List EngAction) (hcap : 0 < cap) :
    ∃ n,
      (drainAll^[n] (runActs acts (initEngine cap))).queued = [] ∧
      (drainAll^[n] (runActs acts (initEngine cap))).deferred = [] ∧
      ((drainAll^[n] (runActs acts (initEngine cap))).acked).Perm
        (List.range
          (drainAll^[n] (runActs acts (initEngine cap))).nextId) := by
  have hinv : EngInv (runActs acts (initEngine cap)) :=
    engInv_run acts (initEngine cap) (engInv_init cap)
  have hcap0 : 0 < (runActs acts (initEngine cap)).cap := by
    rw [runActs_cap]; exact hcap
  obtain ⟨n, h1, h2⟩ := drain_empties
    (2 * (runActs acts (initEngine cap)).deferred.length
      + (runActs acts (initEngine cap)).queued.length)
    (runActs acts (initEngine cap)) hcap0 le_rfl
  refine ⟨n, h1, h2, ?_⟩
  have hinv2 := engInv_iterate n (runActs acts (initEngine cap)) hinv
  unfold EngInv at hinv2
  rw [h1, h2] at hinv2
  simpa using hinv2

/-- Witness for C4: three submissions into a channel of capacity 1 (so two
requests get deferred), then fair host draining empties everything. -/
theorem flush_no_loss_witness :
    ∃ n,
      (drainAll^[n] (runActs [EngAction.submit, EngAction.submit,
          EngAction.submit] (initEngine 1))).queued = [] ∧
      (drainAll^[n] (runActs [EngAction.submit, EngAction.submit,
          EngAction.submit] (initEngine 1))).deferred = [] ∧
      ((drainAll^[n] (runActs [EngAction.submit, EngAction.submit,
          EngAction.submit] (initEngine 1))).acked).Perm
        (List.range
          (drainAll^[n] (runActs [EngAction.submit, EngAction.submit,
            EngAction.submit] (initEngine 1))).nextId) :=
  flush_no_loss 1 [EngAction.submit, EngAction.submit, EngAction.submit]
    (by decide)

end VirtioPmem
